import Mathlib

/-!
Shallow embedding of `src/main.rs` of the `lpc_checksum` tool: a registry of
LPC processor checksum schemes, the boot-ROM checksum computation over the
leading 32-bit little-endian words of a firmware image, and the main pipeline
that resolves a processor name, computes the checksum and patches it back
into the image (unless running in dry-run mode).

Machine integers are modelled as `Nat` with explicit reduction modulo `2^32`;
a firmware image is a list of bytes (`List Nat`, each entry a byte value);
Rust strings are lists of characters.
-/

/-- Modulus of all `u32` arithmetic, that is `2^32`. -/
def U32MOD : Nat := 4294967296

/-- Wrapping negation, the model of `0u32.overflowing_sub(x).0`:
two's-complement negation modulo `2^32`. -/
def negWrap (x : Nat) : Nat := (U32MOD - x % U32MOD) % U32MOD

/-- Little-endian decoding of four bytes, `u32::from_le_bytes([b0,b1,b2,b3])`. -/
def fromLeBytes (b0 b1 b2 b3 : Nat) : Nat :=
  b0 + 256 * b1 + 65536 * b2 + 16777216 * b3

/-- Little-endian encoding of a `u32` value, `value.to_le_bytes()`. -/
def u32ToLeBytes (v : Nat) : List Nat :=
  [v % 256, v / 256 % 256, v / 65536 % 256, v / 16777216 % 256]

/-- Decoding of a byte buffer into little-endian 32-bit words, the model of
`buffer.chunks(4).map(u32::from_le_bytes)`.  The buffer handed to it by
`compute_checksum` always has length `n * 4`, so every chunk has exactly 4
bytes; a ragged tail (which would make the Rust `try_into().unwrap()` panic)
never occurs there. -/
def toWords : List Nat → List Nat
  | b0 :: b1 :: b2 :: b3 :: rest => fromLeBytes b0 b1 b2 b3 :: toWords rest
  | _ => []

/-- Encoding of a word sequence as an image byte buffer (each word in
little-endian order); used to state properties over word sequences. -/
def wordsToBytes : List Nat → List Nat
  | [] => []
  | w :: ws => u32ToLeBytes w ++ wordsToBytes ws

/-- The summation loop of `compute_checksum`:
`for (i, word) in words.iter().enumerate() { if i != slot { checksum += word } }`
with the wrapping (overflow checks disabled, the Rust release profile)
semantics of `+=` on `u32`.  `i` is the index of the head of the remaining
word list, `acc` the running checksum. -/
def checksumLoop (slot : Nat) : Nat → Nat → List Nat → Nat
  | _, acc, [] => acc
  | i, acc, w :: ws =>
    checksumLoop slot (i + 1) (if i ≠ slot then (acc + w) % U32MOD else acc) ws

/-- The same summation loop with overflow checks enabled (the Rust debug
profile, the default of `cargo build` and `cargo run`): `checksum += word`
panics — modelled as `none` — as soon as the running sum exceeds `u32::MAX`. -/
def checksumLoopChecked (slot : Nat) : Nat → Nat → List Nat → Option Nat
  | _, acc, [] => some acc
  | i, acc, w :: ws =>
    if i ≠ slot then
      if acc + w < U32MOD then checksumLoopChecked slot (i + 1) (acc + w) ws
      else none
    else checksumLoopChecked slot (i + 1) acc ws

/-- Specification-side sum: the plain (unbounded) sum of the words whose
index differs from `slot`, the head of the list carrying index `i`. -/
def maskedSumFrom (slot : Nat) : Nat → List Nat → Nat
  | _, [] => 0
  | i, w :: ws => (if i = slot then 0 else w) + maskedSumFrom slot (i + 1) ws

/-- Record `ProcessorChecksumInfo` from `main.rs`. -/
structure ProcessorChecksumInfo where
  cpu_family : List Char
  words_count : Option Nat
  resulting_word_position : Nat
deriving DecidableEq

/-- Errors that can surface from `compute_checksum`: `ioError` models the
`std::io::Error` returned when `read_exact` cannot fill the buffer;
`panicked` models the `unwrap()` panic when `words_count` is `None`. -/
inductive ComputeError where
  | ioError
  | panicked
deriving DecidableEq

/-- Model of `ProcessorChecksumInfo::compute_checksum`: resize a buffer to
`words_count.unwrap() * 4` bytes, `read_exact` it from the start of the
image, decode little-endian words, sum every word whose index differs from
`resulting_word_position` (wrapping), and return `0u32.overflowing_sub(sum).0`.
The image argument stands for the file contents from the initial read
position; `read_exact` fails (with an I/O error) exactly when the image
provides fewer than `n * 4` bytes. -/
def compute_checksum (info : ProcessorChecksumInfo) (image : List Nat) :
    Except ComputeError Nat :=
  match info.words_count with
  | none => Except.error ComputeError.panicked
  | some n =>
    if image.length < n * 4 then Except.error ComputeError.ioError
    else
      Except.ok (negWrap
        (checksumLoop info.resulting_word_position 0 0 (toWords (image.take (n * 4)))))

/-- Prefix test: the second list is an initial segment of the first. -/
def startsWith : List Char → List Char → Bool
  | _, [] => true
  | [], _ :: _ => false
  | a :: as, b :: bs => a = b && startsWith as bs

/-- Substring containment, the embedding of Rust `str::contains`: the needle
occurs contiguously somewhere in the haystack. -/
def strContains : List Char → List Char → Bool
  | hay, needle =>
    if startsWith hay needle then true
    else
      match hay with
      | [] => false
      | _ :: t => strContains t needle

def lpc3Id : List Char := "LPC3".data
def lpc29Id : List Char := "LPC29".data
def lpc1Id : List Char := "LPC1".data
def lpc2Id : List Char := "LPC2".data
def lpc4Id : List Char := "LPC4".data
def lpc5Id : List Char := "LPC5".data
def lpc1000Id : List Char := "LPC1000".data
def lpc1768Id : List Char := "LPC1768".data
def lpc3000Id : List Char := "LPC3000".data

/-- LPC3 registry entry: checksum validation unsupported. -/
def lpc3Info : ProcessorChecksumInfo where
  cpu_family := lpc3Id
  words_count := none
  resulting_word_position := 0

/-- LPC29 registry entry: checksum validation unsupported. -/
def lpc29Info : ProcessorChecksumInfo where
  cpu_family := lpc29Id
  words_count := none
  resulting_word_position := 0

/-- LPC1 registry entry. -/
def lpc1Info : ProcessorChecksumInfo where
  cpu_family := lpc1Id
  words_count := some 7
  resulting_word_position := 7

/-- LPC2 registry entry. -/
def lpc2Info : ProcessorChecksumInfo where
  cpu_family := lpc2Id
  words_count := some 8
  resulting_word_position := 5

/-- LPC4 registry entry. -/
def lpc4Info : ProcessorChecksumInfo where
  cpu_family := lpc4Id
  words_count := some 7
  resulting_word_position := 7

/-- LPC5 registry entry. -/
def lpc5Info : ProcessorChecksumInfo where
  cpu_family := lpc5Id
  words_count := some 7
  resulting_word_position := 7

/-- The registry `PROCESSOR_CHECKSUM`, in definition order. -/
def PROCESSOR_CHECKSUM : List ProcessorChecksumInfo :=
  [lpc3Info, lpc29Info, lpc1Info, lpc2Info, lpc4Info, lpc5Info]

/-- The scan loop of `get_processor_checksum_info_by_name`, over an arbitrary
list of entries: first entry whose `cpu_family` the part number contains. -/
def findInfo (cpu_part_number : List Char) :
    List ProcessorChecksumInfo → Option ProcessorChecksumInfo
  | [] => none
  | p :: rest =>
    if strContains cpu_part_number p.cpu_family then some p
    else findInfo cpu_part_number rest

/-- Model of `get_processor_checksum_info_by_name`: the first entry of
`PROCESSOR_CHECKSUM` whose `cpu_family` is a substring of the given part
number. -/
def get_processor_checksum_info_by_name (cpu_part_number : List Char) :
    Option ProcessorChecksumInfo :=
  findInfo cpu_part_number PROCESSOR_CHECKSUM

/-- Observable outcome of one `main` invocation: `exitOk` records whether
`main` returned `Ok(())` (process exit code 0) as opposed to propagating an
error (non-zero exit); `image` is the final content of the firmware file;
`reported` the checksum printed by `info!` (if reached); `errorLogged`
whether an `error!` line was emitted; `warned` whether the unknown-processor
fallback `warn!` fired. -/
structure RunResult where
  exitOk : Bool
  image : List Nat
  reported : Option Nat
  errorLogged : Bool
  warned : Bool
deriving DecidableEq

/-- Model of `seek(SeekFrom::Start(off))` followed by `write_all(data)` on a
file whose current content is `image`: bytes `off .. off + data.length` are
replaced by `data`; a seek past the end zero-fills the gap; the rest of the
file is untouched. -/
def writeAt (image : List Nat) (off : Nat) (data : List Nat) : List Nat :=
  image.take off ++ List.replicate (off - image.length) 0 ++ data ++
    image.drop (off + data.length)

/-- Processor resolution in `main`: try the user identifier, fall back to
`"LPC1000"` (with a warning) when it matches nothing.  The `none` result
models the `unwrap()` panic after the fallback, which never occurs because
`"LPC1000"` always resolves. -/
def resolveOrFallback (processor : List Char) : Option (ProcessorChecksumInfo × Bool) :=
  match get_processor_checksum_info_by_name processor with
  | some info => some (info, false)
  | none =>
    match get_processor_checksum_info_by_name lpc1000Id with
    | some info => some (info, true)
    | none => none

/-- Model of the checksum part of `main` (after argument parsing), for a
firmware file that opens successfully with content `image`: resolve the
processor, branch on scheme support, compute the checksum, and (unless
`dry_run`) patch it at byte offset `resulting_word_position * 4`.  An
unsupported scheme logs an error and still returns `Ok(())`; a compute error
propagates through `?` and makes `main` return `Err` (non-zero exit). -/
def run (processor : List Char) (image : List Nat) (dry_run : Bool) :
    Option RunResult :=
  match resolveOrFallback processor with
  | none => none
  | some (info, warned) =>
    match info.words_count with
    | none => some ⟨true, image, none, true, warned⟩
    | some _ =>
      match compute_checksum info image with
      | Except.error _ => some ⟨false, image, none, false, warned⟩
      | Except.ok c =>
        if dry_run then some ⟨true, image, some c, false, warned⟩
        else
          some ⟨true, writeAt image (info.resulting_word_position * 4) (u32ToLeBytes c),
            some c, false, warned⟩

/-- The seven words of the spec's LPC1 example scenario. -/
def exampleWords7 : List Nat := [1, 2, 3, 4, 5, 6, 7]

/-- 28-byte image encoding `exampleWords7`. -/
def exampleImage28 : List Nat := wordsToBytes exampleWords7

/-- Eight words whose running sum overflows `u32` before reaching slot 5. -/
def overflowWords : List Nat := [2147483648, 2147483648, 0, 0, 0, 0, 0, 0]

/-- 32-byte image encoding `overflowWords`. -/
def overflowImage : List Nat := wordsToBytes overflowWords

/-- The spec's LPC2 example words, with value 99 in slot 5. -/
def slotWordsA : List Nat := [10, 10, 10, 10, 10, 99, 10, 10]

/-- The same words with slot 5 replaced by 77. -/
def slotWordsB : List Nat := [10, 10, 10, 10, 10, 77, 10, 10]

/-- Image encoding `slotWordsA`. -/
def slotImageA : List Nat := wordsToBytes slotWordsA

/-- Image encoding `slotWordsB`. -/
def slotImageB : List Nat := wordsToBytes slotWordsB

/-- A 3-byte image, shorter than any supported checksum region. -/
def shortImage : List Nat := [0, 1, 2]

/-- A 1-byte image used for the unsupported-scheme run. -/
def tinyImage : List Nat := [171]

/-- Expected pipeline outcome of the non-dry LPC1 example run: checksum
`0xFFFFFFE4` reported and patched at byte offset 28. -/
def examplePatched : RunResult :=
  ⟨true, writeAt exampleImage28 28 (u32ToLeBytes 4294967268), some 4294967268,
    false, false⟩

/-! ## General lemmas about the embedded operations -/

/-- The summation loop computes the masked plain sum, reduced mod `2^32`. -/
theorem checksumLoop_eq (slot : Nat) (ws : List Nat) :
    ∀ i acc, acc < U32MOD →
      checksumLoop slot i acc ws = (acc + maskedSumFrom slot i ws) % U32MOD := by
  induction ws with
  | nil =>
    intro i acc h
    simp [checksumLoop, maskedSumFrom, Nat.mod_eq_of_lt h]
  | cons w ws ih =>
    intro i acc h
    by_cases hi : i = slot
    · simp only [checksumLoop, maskedSumFrom, hi, ne_eq, not_true_eq_false, if_false,
        if_pos rfl]
      rw [ih _ acc h]
      simp
    · simp only [checksumLoop, maskedSumFrom, ne_eq, hi, not_false_eq_true, if_true,
        if_false, if_neg hi]
      rw [ih _ _ (Nat.mod_lt _ (by unfold U32MOD; omega))]
      unfold U32MOD
      omega

theorem toWords_nil_of_short (bs : List Nat) (h : bs.length < 4) : toWords bs = [] := by
  match bs, h with
  | [], _ => rfl
  | [a], _ => rfl
  | [a, b], _ => rfl
  | [a, b, c], _ => rfl

theorem getD_cons4 (a b c d : Nat) (l : List Nat) (n : Nat) :
    (a :: b :: c :: d :: l).getD (n + 4) 0 = l.getD n 0 := by
  simp [List.getD_cons_succ]

theorem getD_take (l : List Nat) (m j : Nat) (h : j < m) :
    (l.take m).getD j 0 = l.getD j 0 := by
  induction l generalizing m j with
  | nil => simp
  | cons a t ih =>
    cases m with
    | zero => omega
    | succ m =>
      cases j with
      | zero => simp
      | succ j => simpa using ih m j (by omega)

/-- Decoding is a left inverse of encoding for genuine 32-bit words. -/
theorem toWords_wordsToBytes (ws : List Nat) (h : ∀ w ∈ ws, w < U32MOD) :
    toWords (wordsToBytes ws) = ws := by
  induction ws with
  | nil => rfl
  | cons w ws ih =>
    have hw : w < U32MOD := h w (by simp)
    have hfle : fromLeBytes (w % 256) (w / 256 % 256) (w / 65536 % 256)
        (w / 16777216 % 256) = w := by
      unfold fromLeBytes
      unfold U32MOD at hw
      omega
    show toWords (u32ToLeBytes w ++ wordsToBytes ws) = w :: ws
    show toWords (w % 256 :: w / 256 % 256 :: w / 65536 % 256 :: w / 16777216 % 256 ::
      wordsToBytes ws) = w :: ws
    simp only [toWords, hfle]
    rw [ih (fun x hx => h x (by simp [hx]))]

theorem wordsToBytes_length (ws : List Nat) :
    (wordsToBytes ws).length = 4 * ws.length := by
  induction ws with
  | nil => rfl
  | cons w ws ih => simp [wordsToBytes, u32ToLeBytes, ih]; omega

/-- Past the excluded slot, the masked sum is the plain sum. -/
theorem maskedSumFrom_all (slot : Nat) (ws : List Nat) :
    ∀ i, slot < i → maskedSumFrom slot i ws = ws.sum := by
  induction ws with
  | nil => intro i _; rfl
  | cons w ws ih =>
    intro i hi
    simp only [maskedSumFrom, if_neg (by omega : ¬ i = slot), List.sum_cons]
    rw [ih (i + 1) (by omega)]

/-- Replacing the word at position `p` by `c` turns the plain sum into the
masked sum plus `c`. -/
theorem sum_set_eq_maskedSum (ws : List Nat) :
    ∀ i p c, p < ws.length →
      ((ws.set p c).sum) = maskedSumFrom (i + p) i ws + c := by
  induction ws with
  | nil => intro i p c h; simp at h
  | cons w ws ih =>
    intro i p c h
    cases p with
    | zero =>
      simp only [List.set, List.sum_cons, maskedSumFrom, if_pos (by omega : i = i + 0)]
      rw [maskedSumFrom_all (i + 0) ws (i + 1) (by omega)]
      omega
    | succ p =>
      simp only [List.set, List.sum_cons, maskedSumFrom,
        if_neg (by omega : ¬ i = i + (p + 1))]
      have e : i + 1 + p = i + (p + 1) := by omega
      rw [ih (i + 1) p c (by simpa using h), e]
      omega

/-- Closed form of `compute_checksum` when the image is long enough. -/
theorem compute_checksum_eq (info : ProcessorChecksumInfo) (n : Nat) (image : List Nat)
    (h : info.words_count = some n) (hlen : n * 4 ≤ image.length) :
    compute_checksum info image =
      Except.ok (negWrap (maskedSumFrom info.resulting_word_position 0
        (toWords (image.take (n * 4))))) := by
  unfold compute_checksum
  simp only [h]
  rw [if_neg (by omega)]
  rw [checksumLoop_eq _ _ 0 0 (by unfold U32MOD; omega)]
  unfold negWrap U32MOD
  congr 1
  omega

/-- The summation loop only looks at bytes outside the excluded word's
four-byte window: two byte buffers of equal length agreeing there decode to
loop-equal word lists. -/
theorem checksumLoop_toWords_congr (slot : Nat) (bs1 : List Nat) :
    ∀ bs2 i acc, bs1.length = bs2.length →
      (∀ j, j < bs1.length →
        (4 * i + j < slot * 4 ∨ slot * 4 + 4 ≤ 4 * i + j) →
        bs1.getD j 0 = bs2.getD j 0) →
      checksumLoop slot i acc (toWords bs1) = checksumLoop slot i acc (toWords bs2) := by
  induction bs1 using toWords.induct with
  | case1 b0 b1 b2 b3 rest ih =>
    intro bs2 i acc hlen hagree
    match bs2, hlen with
    | c0 :: c1 :: c2 :: c3 :: rest2, hlen =>
      have hlen' : rest.length = rest2.length := by simpa using hlen
      have htail : ∀ j, j < rest.length →
          (4 * (i + 1) + j < slot * 4 ∨ slot * 4 + 4 ≤ 4 * (i + 1) + j) →
          rest.getD j 0 = rest2.getD j 0 := by
        intro j hj hcond
        have := hagree (j + 4) (by simp; omega) (by omega)
        rwa [getD_cons4, getD_cons4] at this
      by_cases hi : i = slot
      · simp only [toWords, checksumLoop, ne_eq, hi, not_true_eq_false, if_false]
        exact ih rest2 (slot + 1) acc hlen' (by simpa [hi] using htail)
      · have hout : ∀ k, k < 4 → (4 * i + k < slot * 4 ∨ slot * 4 + 4 ≤ 4 * i + k) := by
          intro k hk
          rcases Nat.lt_or_ge i slot with h | h
          · left; omega
          · right; omega
        have e0 := hagree 0 (by simp) (hout 0 (by omega))
        have e1 := hagree 1 (by simp) (hout 1 (by omega))
        have e2 := hagree 2 (by simp) (hout 2 (by omega))
        have e3 := hagree 3 (by simp) (hout 3 (by omega))
        simp only [List.getD_cons_zero, List.getD_cons_succ] at e0 e1 e2 e3
        simp only [toWords, checksumLoop, ne_eq, hi, not_false_eq_true, if_true,
          e0, e1, e2, e3]
        exact ih rest2 (i + 1) _ hlen' htail
  | case2 bs1 h =>
    intro bs2 i acc hlen hagree
    have h1 : bs1.length < 4 := by
      match bs1, h with
      | [], _ => simp
      | [a], _ => simp
      | [a, b], _ => simp
      | [a, b, c], _ => simp
      | a :: b :: c :: d :: t, h => exact (h a b c d t rfl).elim
    rw [toWords_nil_of_short bs1 h1, toWords_nil_of_short bs2 (by omega)]

theorem getD_drop (l : List Nat) : ∀ m j, (l.drop m).getD j 0 = l.getD (m + j) 0 := by
  induction l with
  | nil => intro m j; simp
  | cons a t ih =>
    intro m j
    cases m with
    | zero => simp
    | succ m =>
      have e : m + 1 + j = (m + j) + 1 := by omega
      rw [e, List.drop_succ_cons, List.getD_cons_succ]
      exact ih m j

theorem writeAt_length (image : List Nat) (off : Nat) (data : List Nat) :
    (writeAt image off data).length = max image.length (off + data.length) := by
  simp [writeAt]
  omega

/-- The patched window holds exactly the written data. -/
theorem writeAt_getD_data (image : List Nat) (off : Nat) (data : List Nat) (k : Nat)
    (hk : k < data.length) :
    (writeAt image off data).getD (off + k) 0 = data.getD k 0 := by
  unfold writeAt
  have hp : (image.take off ++ List.replicate (off - image.length) 0).length = off := by
    simp; omega
  rw [List.append_assoc]
  rw [List.getD_append_right _ _ _ _ (by rw [hp]; omega)]
  rw [hp, Nat.add_sub_cancel_left]
  rw [List.getD_append _ _ _ _ (by omega)]

/-- Bytes before the patched window are untouched. -/
theorem writeAt_getD_before (image : List Nat) (off : Nat) (data : List Nat) (j : Nat)
    (hj : j < image.length) (hoff : j < off) :
    (writeAt image off data).getD j 0 = image.getD j 0 := by
  unfold writeAt
  rw [List.append_assoc, List.append_assoc]
  rw [List.getD_append _ _ _ _ (by simp; omega)]
  exact getD_take image off j hoff

/-- Bytes after the patched window are untouched. -/
theorem writeAt_getD_after (image : List Nat) (off : Nat) (data : List Nat) (j : Nat)
    (hj : off + data.length ≤ j) :
    (writeAt image off data).getD j 0 = image.getD j 0 := by
  unfold writeAt
  have hp : (image.take off ++ List.replicate (off - image.length) 0).length = off := by
    simp; omega
  rw [List.append_assoc]
  rw [List.getD_append_right _ _ _ _ (by rw [hp]; omega)]
  rw [hp]
  rw [List.getD_append_right _ _ _ _ (by omega)]
  rw [getD_drop]
  congr 1
  omega

/-- An empty scan result means no entry's family is contained. -/
theorem findInfo_eq_none_iff (id : List Char) (l : List ProcessorChecksumInfo) :
    findInfo id l = none ↔ ∀ p ∈ l, strContains id p.cpu_family = false := by
  induction l with
  | nil => simp [findInfo]
  | cons a rest ih =>
    by_cases hc : strContains id a.cpu_family = true
    · simp [findInfo, hc]
    · have hc' : strContains id a.cpu_family = false := by
        cases h' : strContains id a.cpu_family
        · rfl
        · exact absurd h' hc
      simp [findInfo, hc', ih]

/-- A scan result is the first matching entry in list order. -/
theorem findInfo_first (id : List Char) (l : List ProcessorChecksumInfo)
    (p : ProcessorChecksumInfo) :
    findInfo id l = some p →
    ∃ l1 l2, l = l1 ++ p :: l2 ∧ strContains id p.cpu_family = true ∧
      ∀ q ∈ l1, strContains id q.cpu_family = false := by
  induction l with
  | nil => intro h; simp [findInfo] at h
  | cons a rest ih =>
    intro h
    by_cases hc : strContains id a.cpu_family = true
    · simp only [findInfo, if_pos hc] at h
      obtain rfl : a = p := by injection h
      exact ⟨[], rest, rfl, hc, by simp⟩
    · simp only [findInfo, if_neg hc] at h
      obtain ⟨l1, l2, rfl, hm, hall⟩ := ih h
      refine ⟨a :: l1, l2, rfl, hm, ?_⟩
      intro q hq
      rcases List.mem_cons.mp hq with rfl | hq'
      · cases h' : strContains id q.cpu_family
        · rfl
        · exact absurd h' hc
      · exact hall q hq'

/-- A contained family guarantees the scan returns some matching entry. -/
theorem findInfo_mem (id : List Char) (l : List ProcessorChecksumInfo)
    (p : ProcessorChecksumInfo) :
    p ∈ l → strContains id p.cpu_family = true →
    ∃ q, findInfo id l = some q ∧ strContains id q.cpu_family = true := by
  induction l with
  | nil => intro h _; simp at h
  | cons a rest ih =>
    intro hmem hp
    by_cases hc : strContains id a.cpu_family = true
    · exact ⟨a, by simp [findInfo, hc], hc⟩
    · rcases List.mem_cons.mp hmem with rfl | hmem'
      · exact absurd hp hc
      · obtain ⟨q, hq, hq2⟩ := ih hmem' hp
        exact ⟨q, by simp [findInfo, hc, hq], hq2⟩

theorem startsWith_nil (hay : List Char) : startsWith hay [] = true := by
  cases hay <;> rfl

/-- Containment of a concatenation gives containment of its first part. -/
theorem startsWith_append (n1 : List Char) :
    ∀ hay n2, startsWith hay (n1 ++ n2) = true → startsWith hay n1 = true := by
  induction n1 with
  | nil => intro hay n2 _; exact startsWith_nil hay
  | cons b bs ih =>
    intro hay n2 h
    match hay with
    | [] => exact absurd h (by simp [startsWith])
    | a :: t =>
      simp only [List.cons_append, startsWith, Bool.and_eq_true] at h ⊢
      exact ⟨h.1, ih t n2 h.2⟩

theorem strContains_append (n1 n2 : List Char) :
    ∀ hay, strContains hay (n1 ++ n2) = true → strContains hay n1 = true := by
  intro hay
  induction hay with
  | nil =>
    intro h
    simp only [strContains] at h ⊢
    split at h
    · rename_i hsw
      rw [if_pos (startsWith_append n1 [] n2 hsw)]
    · exact absurd h (by simp)
  | cons a t ih =>
    intro h
    simp only [strContains] at h ⊢
    split at h
    · rename_i hsw
      rw [if_pos (startsWith_append n1 (a :: t) n2 hsw)]
    · rename_i hsw
      by_cases hsw1 : startsWith (a :: t) n1 = true
      · rw [if_pos hsw1]
      · rw [if_neg hsw1]
        exact ih h

/-- Resolution with the `"LPC1000"` fallback always yields a scheme. -/
theorem resolveOrFallback_total (processor : List Char) :
    ∃ info warned, resolveOrFallback processor = some (info, warned) := by
  unfold resolveOrFallback
  cases h : get_processor_checksum_info_by_name processor with
  | some info => exact ⟨info, false, rfl⟩
  | none => exact ⟨lpc1Info, true, rfl⟩

/-! ## Claim theorems -/

/-- C1: for every scheme with `words_count = some n` and every image
providing at least `n * 4` bytes, `compute_checksum` returns the
two's-complement negation modulo `2^32` of the sum of the `n` little-endian
32-bit words at offsets `0 .. n*4`, the word at index
`resulting_word_position` excluded (an exclusion that hits no index when the
slot is not within `0 .. n-1`). -/
theorem compute_checksum_neg_masked_sum (info : ProcessorChecksumInfo) (n : Nat)
    (image : List Nat) (h : info.words_count = some n) (hlen : n * 4 ≤ image.length) :
    compute_checksum info image =
      Except.ok (negWrap (maskedSumFrom info.resulting_word_position 0
        (toWords (image.take (n * 4))))) :=
  compute_checksum_eq info n image h hlen

/-- C1 witness: the spec's LPC1 scenario — scheme with `words_count = 7`,
`resulting_word_position = 7`, words `[1..7]`: no index is excluded and the
checksum is `0xFFFFFFE4`. -/
theorem compute_checksum_neg_masked_sum_witness :
    lpc1Info.words_count = some 7 ∧ 7 * 4 ≤ exampleImage28.length ∧
    compute_checksum lpc1Info exampleImage28 = Except.ok 4294967268 :=
  ⟨rfl, by decide,
    (compute_checksum_neg_masked_sum lpc1Info 7 exampleImage28 rfl (by decide)).trans
      (by rfl)⟩

/-- C2 counterexample: with the registry's LPC1 scheme
(`words_count = some 7`, `resulting_word_position = 7`) and words `[1..7]`,
replacing the word at index `resulting_word_position` is out of range and
leaves the 7 words unchanged, so their sum modulo `2^32` is `28`, not `0`. -/
theorem replace_slot_sum_nonzero_lpc1 :
    lpc1Info.words_count = some 7 ∧
    compute_checksum lpc1Info (wordsToBytes exampleWords7) = Except.ok 4294967268 ∧
    ((exampleWords7.set lpc1Info.resulting_word_position 4294967268).sum) % U32MOD
      = 28 ∧
    (28 : Nat) ≠ 0 :=
  ⟨rfl, rfl, rfl, by decide⟩

/-- C2 (amended): for every scheme with `words_count = some n` whose
`resulting_word_position` lies within `0 .. n-1`, and every sequence of `n`
32-bit words: replacing the word at the result slot by the output of
`compute_checksum` on the encoded image makes the plain sum of the `n` words
vanish modulo `2^32`.  (The registry's LPC1/LPC4/LPC5 schemes have
`resulting_word_position = 7 = words_count`, where the replacement is a
no-op and the sum is in general non-zero.) -/
theorem replace_slot_sum_zero_of_slot_lt (info : ProcessorChecksumInfo) (n : Nat)
    (ws : List Nat) (c : Nat)
    (h : info.words_count = some n) (hlen : ws.length = n)
    (hw : ∀ w ∈ ws, w < U32MOD)
    (hslot : info.resulting_word_position < n)
    (hc : compute_checksum info (wordsToBytes ws) = Except.ok c) :
    ((ws.set info.resulting_word_position c).sum) % U32MOD = 0 := by
  have hb : (wordsToBytes ws).length = 4 * ws.length := wordsToBytes_length ws
  have hcomp := compute_checksum_eq info n (wordsToBytes ws) h (by omega)
  rw [hcomp] at hc
  have hc' : c = negWrap (maskedSumFrom info.resulting_word_position 0
      (toWords ((wordsToBytes ws).take (n * 4)))) := by
    injection hc with h'
    exact h'.symm
  have htake : (wordsToBytes ws).take (n * 4) = wordsToBytes ws := by
    apply List.take_of_length_le
    omega
  rw [htake, toWords_wordsToBytes ws hw] at hc'
  have hsum := sum_set_eq_maskedSum ws 0 info.resulting_word_position c (by omega)
  simp only [Nat.zero_add] at hsum
  rw [hsum, hc']
  unfold negWrap U32MOD
  omega

/-- C2 witness: LPC2 scheme, words `[10,10,10,10,10,99,10,10]`: the computed
checksum `0xFFFFFFBA` installed at slot 5 makes the sum vanish mod `2^32`. -/
theorem replace_slot_sum_zero_of_slot_lt_witness :
    lpc2Info.words_count = some 8 ∧ slotWordsA.length = 8 ∧
    (∀ w ∈ slotWordsA, w < U32MOD) ∧ lpc2Info.resulting_word_position < 8 ∧
    compute_checksum lpc2Info (wordsToBytes slotWordsA) = Except.ok 4294967226 ∧
    ((slotWordsA.set lpc2Info.resulting_word_position 4294967226).sum) % U32MOD = 0 :=
  ⟨rfl, rfl, by decide, by decide, rfl,
    replace_slot_sum_zero_of_slot_lt lpc2Info 8 slotWordsA 4294967226 rfl rfl
      (by decide) (by decide) rfl⟩

/-- C3: for every scheme with `words_count = some n`, two images of equal
length that agree on every byte outside the four-byte window
`resulting_word_position * 4 .. + 4` produce the same `compute_checksum`
result. -/
theorem compute_checksum_ignores_result_slot_bytes (info : ProcessorChecksumInfo)
    (n : Nat) (img1 img2 : List Nat)
    (h : info.words_count = some n)
    (hlen : img1.length = img2.length)
    (hagree : ∀ j, j < img1.length →
      (j < info.resulting_word_position * 4 ∨
        info.resulting_word_position * 4 + 4 ≤ j) →
      img1.getD j 0 = img2.getD j 0) :
    compute_checksum info img1 = compute_checksum info img2 := by
  unfold compute_checksum
  simp only [h]
  by_cases hshort : img1.length < n * 4
  · rw [if_pos hshort, if_pos (by omega)]
  · rw [if_neg hshort, if_neg (by omega)]
    congr 2
    apply checksumLoop_toWords_congr
    · simp [List.length_take, hlen]
    · intro j hj hcond
      have hj' : j < n * 4 ∧ j < img1.length := by
        simp [List.length_take] at hj
        omega
      rw [getD_take _ _ _ hj'.1, getD_take _ _ _ hj'.1]
      exact hagree j hj'.2 (by omega)

/-- C3 witness: the spec's LPC2 scenario — words `[10,10,10,10,10,99,10,10]`
and `[10,10,10,10,10,77,10,10]` differ only inside slot 5's byte window and
both yield checksum `0xFFFFFFBA`. -/
theorem compute_checksum_ignores_result_slot_bytes_witness :
    lpc2Info.words_count = some 8 ∧ slotImageA.length = slotImageB.length ∧
    (∀ j, j < slotImageA.length →
      (j < lpc2Info.resulting_word_position * 4 ∨
        lpc2Info.resulting_word_position * 4 + 4 ≤ j) →
      slotImageA.getD j 0 = slotImageB.getD j 0) ∧
    compute_checksum lpc2Info slotImageA = compute_checksum lpc2Info slotImageB ∧
    compute_checksum lpc2Info slotImageA = Except.ok 4294967226 :=
  ⟨rfl, rfl, by decide,
    compute_checksum_ignores_result_slot_bytes lpc2Info 8 slotImageA slotImageB rfl
      rfl (by decide), rfl⟩

/-- C4 (code evaluation): with the LPC2 scheme and words
`[0x80000000, 0x80000000, 0, 0, 0, 0, 0, 0]`, the summation loop under
overflow checks (debug profile) overflows `u32` at the second word and
panics (`none`), whereas under wrapping semantics (release profile) the sum
silently wraps to `0` and `compute_checksum` returns `0`. -/
theorem checked_add_overflow_vs_wrap :
    checksumLoopChecked lpc2Info.resulting_word_position 0 0
      (toWords (overflowImage.take (8 * 4))) = none ∧
    compute_checksum lpc2Info overflowImage = Except.ok 0 :=
  ⟨rfl, rfl⟩

/-- C5 counterexample: the identifier `"LPC29"` contains the registered
family `"LPC2"` as a substring, yet resolution returns the LPC29 record, not
the LPC2 scheme — the claim "returns that scheme" fails for `"LPC2"`. -/
theorem resolve_substring_not_that_scheme :
    strContains lpc29Id lpc2Id = true ∧
    lpc2Info ∈ PROCESSOR_CHECKSUM ∧
    get_processor_checksum_info_by_name lpc29Id = some lpc29Info ∧
    lpc29Info ≠ lpc2Info ∧
    get_processor_checksum_info_by_name lpc29Id ≠ some lpc2Info :=
  ⟨by decide, by decide, rfl, by decide, by decide⟩

/-- C5 (amended): resolution scans the fixed list in definition order and
returns the first scheme whose `cpu_family` is a substring of the
identifier; it returns `none` exactly when no family matches; an identifier
containing some registered family resolves to some matching scheme (the
first in scan order, not necessarily the containing one); and the fallback
identifier `"LPC1000"` resolves (to the LPC1 scheme). -/
theorem resolve_first_match_characterization :
    (∀ id, get_processor_checksum_info_by_name id = none ↔
      ∀ p ∈ PROCESSOR_CHECKSUM, strContains id p.cpu_family = false) ∧
    (∀ id p, get_processor_checksum_info_by_name id = some p →
      ∃ l1 l2, PROCESSOR_CHECKSUM = l1 ++ p :: l2 ∧
        strContains id p.cpu_family = true ∧
        ∀ q ∈ l1, strContains id q.cpu_family = false) ∧
    (∀ id p, p ∈ PROCESSOR_CHECKSUM → strContains id p.cpu_family = true →
      ∃ q, get_processor_checksum_info_by_name id = some q ∧
        strContains id q.cpu_family = true) ∧
    get_processor_checksum_info_by_name lpc1000Id = some lpc1Info := by
  refine ⟨?_, ?_, ?_, rfl⟩
  · intro id
    exact findInfo_eq_none_iff id PROCESSOR_CHECKSUM
  · intro id p
    exact findInfo_first id PROCESSOR_CHECKSUM p
  · intro id p hm hc
    exact findInfo_mem id PROCESSOR_CHECKSUM p hm hc

/-- C5 witness: `"LPC1000"` contains the registered family `"LPC1"` and
resolves to some scheme whose family it contains. -/
theorem resolve_first_match_characterization_witness :
    lpc1Info ∈ PROCESSOR_CHECKSUM ∧
    strContains lpc1000Id lpc1Info.cpu_family = true ∧
    ∃ q, get_processor_checksum_info_by_name lpc1000Id = some q ∧
      strContains lpc1000Id q.cpu_family = true :=
  ⟨by decide, by decide,
    resolve_first_match_characterization.2.2.1 lpc1000Id lpc1Info (by decide)
      (by decide)⟩

/-- C6: an image providing fewer than `n * 4` bytes makes `compute_checksum`
fail with the I/O error, and the pipeline then returns the error (`main`
exits non-zero), reports no checksum, and leaves the image untouched — the
patch write is never attempted. -/
theorem short_image_io_error_no_write :
    (∀ info n image, info.words_count = some n → image.length < n * 4 →
      compute_checksum info image = Except.error ComputeError.ioError) ∧
    (∀ processor image dry_run info warned n,
      resolveOrFallback processor = some (info, warned) →
      info.words_count = some n → image.length < n * 4 →
      run processor image dry_run = some ⟨false, image, none, false, warned⟩) := by
  have hio : ∀ info n image, info.words_count = some (n : Nat) →
      image.length < n * 4 →
      compute_checksum info image = Except.error ComputeError.ioError := by
    intro info n image h hshort
    unfold compute_checksum
    simp only [h]
    rw [if_pos hshort]
  refine ⟨hio, ?_⟩
  intro processor image dry_run info warned n hres h hshort
  unfold run
  simp only [hres, h, hio info n image h hshort]

/-- C6 witness: the LPC1 scheme on a 3-byte image fails with the I/O error
and the `"LPC1768"` pipeline run propagates it without touching the image. -/
theorem short_image_io_error_no_write_witness :
    lpc1Info.words_count = some 7 ∧ shortImage.length < 7 * 4 ∧
    compute_checksum lpc1Info shortImage = Except.error ComputeError.ioError ∧
    resolveOrFallback lpc1768Id = some (lpc1Info, false) ∧
    run lpc1768Id shortImage false = some ⟨false, shortImage, none, false, false⟩ :=
  ⟨rfl, by decide,
    short_image_io_error_no_write.1 lpc1Info 7 shortImage rfl (by decide),
    rfl,
    short_image_io_error_no_write.2 lpc1768Id shortImage false lpc1Info false 7 rfl
      rfl (by decide)⟩

/-- C7: `compute_checksum` is a pure function of the image (the embedding
gives it no way to write), and a dry-run pipeline invocation leaves every
byte of the image unchanged while reporting the same checksum value as the
non-dry-run invocation on the same input. -/
theorem dry_run_preserves_image_and_checksum (processor : List Char)
    (image : List Nat) :
    ∃ r1 r2, run processor image true = some r1 ∧ run processor image false = some r2 ∧
      r1.image = image ∧ r1.reported = r2.reported := by
  obtain ⟨info, warned, hres⟩ := resolveOrFallback_total processor
  unfold run
  simp only [hres]
  cases hwc : info.words_count with
  | none =>
    exact ⟨⟨true, image, none, true, warned⟩, ⟨true, image, none, true, warned⟩,
      rfl, rfl, rfl, rfl⟩
  | some n =>
    cases hcomp : compute_checksum info image with
    | error e =>
      exact ⟨⟨false, image, none, false, warned⟩, ⟨false, image, none, false, warned⟩,
        rfl, rfl, rfl, rfl⟩
    | ok c =>
      exact ⟨⟨true, image, some c, false, warned⟩,
        ⟨true, writeAt image (info.resulting_word_position * 4) (u32ToLeBytes c),
          some c, false, warned⟩,
        rfl, rfl, rfl, rfl⟩

/-- C8: when the non-dry pipeline reports a checksum `c`, the final image is
exactly the original patched at byte offset `resulting_word_position * 4`
with the 4-byte little-endian encoding of `c`: the window holds those 4
bytes, every original byte outside the window is unchanged, and the length
grows only as far as the end of the window. -/
theorem patch_writes_checksum_le_at_slot (processor : List Char) (image : List Nat)
    (info : ProcessorChecksumInfo) (warned : Bool) (c : Nat) (r : RunResult)
    (k j : Nat)
    (hres : resolveOrFallback processor = some (info, warned))
    (hrun : run processor image false = some r)
    (hrep : r.reported = some c)
    (hk : k < 4)
    (hj : j < image.length)
    (hout : j < info.resulting_word_position * 4 ∨
      info.resulting_word_position * 4 + 4 ≤ j) :
    r.image = writeAt image (info.resulting_word_position * 4) (u32ToLeBytes c) ∧
    r.image.getD (info.resulting_word_position * 4 + k) 0 =
      (u32ToLeBytes c).getD k 0 ∧
    r.image.getD j 0 = image.getD j 0 ∧
    r.image.length = max image.length (info.resulting_word_position * 4 + 4) := by
  unfold run at hrun
  simp only [hres] at hrun
  cases hwc : info.words_count with
  | none =>
    rw [hwc] at hrun
    have hr : r = ⟨true, image, none, true, warned⟩ := by
      injection hrun with h'
      exact h'.symm
    subst hr
    simp at hrep
  | some n =>
    rw [hwc] at hrun
    cases hcomp : compute_checksum info image with
    | error e =>
      rw [hcomp] at hrun
      have hr : r = ⟨false, image, none, false, warned⟩ := by
        injection hrun with h'
        exact h'.symm
      subst hr
      simp at hrep
    | ok c' =>
      rw [hcomp] at hrun
      simp only [Bool.false_eq_true, if_false] at hrun
      have hr : r = ⟨true,
          writeAt image (info.resulting_word_position * 4) (u32ToLeBytes c'),
          some c', false, warned⟩ := by
        injection hrun with h'
        exact h'.symm
      subst hr
      have hcc : c' = c := by simpa using hrep
      subst hcc
      refine ⟨rfl, ?_, ?_, ?_⟩
      · exact writeAt_getD_data image _ (u32ToLeBytes c') k
          (by simp [u32ToLeBytes]; omega)
      · rcases hout with hlt | hge
        · exact writeAt_getD_before image _ (u32ToLeBytes c') j hj hlt
        · exact writeAt_getD_after image _ (u32ToLeBytes c') j
            (by simp [u32ToLeBytes]; omega)
      · rw [writeAt_length]
        simp [u32ToLeBytes]

/-- C8 witness: the non-dry `"LPC1768"` run on the 28-byte example image
reports `0xFFFFFFE4` and patches it at byte offset 28, preserving byte 0 and
growing the image to 32 bytes. -/
theorem patch_writes_checksum_le_at_slot_witness :
    run lpc1768Id exampleImage28 false = some examplePatched ∧
    examplePatched.reported = some 4294967268 ∧
    examplePatched.image =
      writeAt exampleImage28 (lpc1Info.resulting_word_position * 4)
        (u32ToLeBytes 4294967268) ∧
    (examplePatched.image).getD (lpc1Info.resulting_word_position * 4 + 0) 0 =
      (u32ToLeBytes 4294967268).getD 0 0 ∧
    (examplePatched.image).getD 0 0 = exampleImage28.getD 0 0 ∧
    (examplePatched.image).length =
      max exampleImage28.length (lpc1Info.resulting_word_position * 4 + 4) := by
  have happ := patch_writes_checksum_le_at_slot lpc1768Id exampleImage28 lpc1Info
    false 4294967268 examplePatched 0 0 rfl rfl rfl (by decide) (by decide)
    (by decide)
  exact ⟨rfl, rfl, happ.1, happ.2.1, happ.2.2.1, happ.2.2.2⟩

/-- C9 (code evaluation): resolving `"LPC3000"` yields the unsupported LPC3
scheme; the run logs an error and touches no byte, but `main` still returns
`Ok(())` — the process exits with code 0, not non-zero.  A read-I/O failure
(second conjunct), by contrast, does propagate and exit non-zero. -/
theorem unsupported_scheme_exits_ok_untouched :
    run lpc3000Id tinyImage false = some ⟨true, tinyImage, none, true, false⟩ ∧
    run lpc1768Id shortImage false = some ⟨false, shortImage, none, false, false⟩ :=
  ⟨rfl, rfl⟩

/-- C10: every identifier containing `"LPC29"` but not `"LPC3"` resolves to
the LPC29 record — whose `words_count` is `none` — and never to the
supported LPC2 scheme, although such an identifier also contains the
registered family `"LPC2"`; LPC29 simply precedes LPC2 in scan order. -/
theorem lpc29_shadows_lpc2 (id : List Char)
    (h29 : strContains id lpc29Id = true) (h3 : strContains id lpc3Id = false) :
    get_processor_checksum_info_by_name id = some lpc29Info ∧
    lpc29Info.words_count = none ∧
    strContains id lpc2Id = true ∧
    get_processor_checksum_info_by_name id ≠ some lpc2Info := by
  have hmain : get_processor_checksum_info_by_name id = some lpc29Info := by
    show findInfo id PROCESSOR_CHECKSUM = some lpc29Info
    unfold PROCESSOR_CHECKSUM
    simp only [findInfo]
    rw [if_neg (by rw [show lpc3Info.cpu_family = lpc3Id from rfl, h3]; simp),
      if_pos (by rw [show lpc29Info.cpu_family = lpc29Id from rfl]; exact h29)]
  refine ⟨hmain, rfl, ?_, ?_⟩
  · have he : lpc29Id = lpc2Id ++ ['9'] := by decide
    exact strContains_append lpc2Id ['9'] id (he ▸ h29)
  · rw [hmain]
    intro hcontra
    have hinfo : lpc29Info = lpc2Info := by
      injection hcontra
    exact absurd hinfo (by decide)

/-- C10 witness: the identifier `"LPC29"` itself contains `"LPC29"`, not
`"LPC3"`, and resolves to the unsupported LPC29 record. -/
theorem lpc29_shadows_lpc2_witness :
    strContains lpc29Id lpc29Id = true ∧ strContains lpc29Id lpc3Id = false ∧
    (get_processor_checksum_info_by_name lpc29Id = some lpc29Info ∧
      lpc29Info.words_count = none ∧ strContains lpc29Id lpc2Id = true ∧
      get_processor_checksum_info_by_name lpc29Id ≠ some lpc2Info) :=
  ⟨by decide, by decide, lpc29_shadows_lpc2 lpc29Id (by decide) (by decide)⟩
